import Mathlib

/-!
Verification of the codebase-explorer pipeline (tree slicing, pruning,
budget enforcement, code-line loading, and the exploration loop).

The development shallowly embeds the TypeScript sources:
  * `src/ast/meta.ts`       — `summarizeAst`, `estimateTokensForAsts`
  * `src/ast/parse.ts`      — `sliceDetailedAST`, `sliceByPaths`, `isNonEmptySlice`
  * `src/code/load.ts`      — `readFileLines`, `nodeLoadCodeSlices`
  * `src/prune/apply.ts`    — `estimateFixedPromptTokens`, `calcAstBudget`,
                              `rankAndTrim`, `trimToTokenBudget`, `applyPrunePlan`
  * `src/graph/machine.ts` / `src/graph/nodes.ts` — the LangGraph pipeline and
    its loop control (`shouldLoop`, the `decide_files_again` back-edge node).

JavaScript numbers that hold small integer counts/budgets are modelled as
`Int` (or `Nat` where the source value is a size), strings as `String`
working over their `Char` lists, and the external LLM oracle / file system
as explicit parameters.
-/

/-! ## JavaScript string primitives (modelled over `Char` lists) -/

/-- Substring test on char lists: models `String.prototype.includes`. -/
def charsContains (hay needle : List Char) : Bool :=
  needle.isPrefixOf hay ||
    match hay with
    | [] => false
    | _ :: t => charsContains t needle

/-- `s.includes(sub)` of JavaScript. -/
def jsIncludes (s sub : String) : Bool := charsContains s.data sub.data

/-- `s.toLowerCase()`; ASCII case mapping (the sources only compare ASCII
paths/keywords and Korean keywords, which are case-invariant). -/
def lowerStr (s : String) : String := ⟨s.data.map Char.toLower⟩

/-- `Array.prototype.join(sep)`. -/
def jsJoin (sep : String) : List String → String
  | [] => ""
  | [x] => x
  | x :: t => x ++ sep ++ jsJoin sep t

/-- Splitter for `text.split(/\r?\n/)`: a line break is `\n`, optionally
preceded by `\r`; a lone `\r` is an ordinary character. -/
def splitLinesChars (acc : List Char) : List Char → List (List Char)
  | [] => [acc.reverse]
  | '\r' :: '\n' :: rest => acc.reverse :: splitLinesChars [] rest
  | '\n' :: rest => acc.reverse :: splitLinesChars [] rest
  | c :: rest => splitLinesChars (c :: acc) rest

/-- `raw.split(/\r?\n/)` from `readFileLines` (src/code/load.ts). -/
def jsSplitLines (raw : String) : List String :=
  (splitLinesChars [] raw.data).map (fun cs => ⟨cs⟩)

/-- Splitter for `p.split('.')` used by `sliceByPaths`. -/
def splitOnDot (acc : List Char) : List Char → List (List Char)
  | [] => [acc.reverse]
  | '.' :: rest => acc.reverse :: splitOnDot [] rest
  | c :: rest => splitOnDot (c :: acc) rest

/-- Decimal digit-string value; `none` on any non-digit. -/
def decDigitsVal (cs : List Char) : Option Nat :=
  cs.foldl
    (fun acc c =>
      match acc with
      | none => none
      | some v => if c.isDigit then some (v * 10 + (c.toNat - '0'.toNat)) else none)
    (some 0)

/-- Models `Number(s)` restricted to the question "is this segment a decimal
integer (optionally signed), and which one": returns `some n` exactly when the
segment is an optionally signed digit string.  (Exotic `Number` syntaxes —
hex, exponents, surrounding whitespace — are outside this embedding; the
sources only feed dot-separated child indices through it.) -/
def jsNumberIntChars (cs : List Char) : Option Int :=
  match cs with
  | [] => none
  | '-' :: rest =>
    if rest.isEmpty then none else (decDigitsVal rest).map (fun n => -(n : Int))
  | '+' :: rest =>
    if rest.isEmpty then none else (decDigitsVal rest).map (fun n => (n : Int))
  | _ => (decDigitsVal cs).map (fun n => (n : Int))

/-! ## Data model (src/core/types.ts) -/

/-- tree-sitter row/column position. -/
structure Position where
  row : Nat
  column : Nat

/-- Prompt-friendly AST node (`AstNodeLite`): type, span, a ≤200-char sample,
and the ordered named children. -/
inductive AstNodeLite where
  | mk (type : String) (startPosition endPosition : Position) (sample : String)
      (children : List AstNodeLite)

/-- Node type tag. -/
def AstNodeLite.type : AstNodeLite → String
  | .mk t _ _ _ _ => t

/-- Node sample text. -/
def AstNodeLite.sample : AstNodeLite → String
  | .mk _ _ _ s _ => s

/-- Node children. -/
def AstNodeLite.children : AstNodeLite → List AstNodeLite
  | .mk _ _ _ _ cs => cs

/-- Per-file detailed AST. -/
structure DetailedAst where
  filePath : String
  language : String
  root : AstNodeLite

/-- Slice hints; every field is optional in the JSON, and
`sliceDetailedAST` destructures with defaults `[]`, `[]`, `200`. -/
structure SliceHints where
  symbols : Option (List String) := none
  hintTypes : Option (List String) := none
  maxNodes : Option Nat := none

/-- One `slice` rule of a prune plan: `{file, by, paths}`.  The source field
`by` is a Lean keyword, so it is named `byHints` here. -/
structure SliceRule where
  file : String
  byHints : Option SliceHints := none
  paths : Option (List String) := none

/-- Prune plan JSON `{mode, keep_full, slice, drop}` (rationale is ignored by
the engine). -/
structure PrunePlan where
  mode : String
  keep_full : List String := []
  slice : List SliceRule := []
  drop : List String := []

/-- Code line range selected by the oracle (1-based inclusive). -/
structure CodeRange where
  file : String
  startLine : Int
  endLine : Int
  rationale : Option String := none

/-- Loaded code slice. -/
structure CodeSlice where
  file : String
  startLine : Int
  endLine : Int
  code : String
  rationale : Option String := none

/-- Prune trace entry. -/
structure PruneTraceItem where
  mode : String
  plannedFiles : List String
  keptFiles : List String
  droppedFiles : List String
  estTokensBefore : Nat
  estTokensAfter : Nat

/-- Execution trace buffer (`_trace`). -/
structure TraceBuffer where
  iterations : Nat
  filesRequested : List (List String)
  filesParsed : List (List String)
  prune : List PruneTraceItem := []

/-- The default trace used whenever `_trace` is absent. -/
def emptyTrace : TraceBuffer := ⟨0, [], [], []⟩

/-- The shallow per-project signature index; only its `files` list is
consulted by the code under verification. -/
structure FilteredAst where
  files : List String

/-- The LangGraph shared state (`GraphState`).  Fields whose TypeScript name
starts with an underscore are renamed (`_loopCount` ↦ `loopCount`,
`_trace` ↦ `trace`). -/
structure GraphState where
  question : String
  filteredAst : Option FilteredAst := none
  wantFiles : List String := []
  sliceHints : Option SliceHints := none
  detailedAsts : List DetailedAst := []
  modeUsed : String := "slice"
  answer : String := ""
  followups : List String := []
  loopCount : Nat := 0
  prunedAsts : Option (List DetailedAst) := none
  prunePlan : Option PrunePlan := none
  prunePlanApplied : Option PrunePlan := none
  droppedAll : Option Bool := none
  codeRanges : Option (List CodeRange) := none
  codeSlices : Option (List CodeSlice) := none
  trace : Option TraceBuffer := none

/-- Environment configuration (src/config/env.ts), restricted to the fields
the verified functions read.  `PROMPT_SAFETY` is a fraction (the float value
is modelled as a rational; no claim depends on float rounding). -/
structure Config where
  PRUNE_ALLOW_DROP_ALL : Bool
  PRUNE_SERVER_ENFORCE_LIMITS : Bool
  PROMPT_MAX_FILES : Int
  MAX_AST_TOKENS : Int
  MODEL_CTX_TOKENS : Int
  OUTPUT_TOKENS_BUDGET : Int
  PROMPT_SAFETY : Rat
  CODE_MAX_FILES : Int
  CODE_MAX_BYTES : Int
  MAX_CODE_TOKENS : Int

/-! ## src/ast/meta.ts -/

mutual

/-- `summarizeAst`: recursively sum sample lengths and count nodes,
returning `(chars, nodes)`. -/
def summarizeAst : AstNodeLite → Nat × Nat
  | .mk _ _ _ sample children =>
    let rest := summarizeList children
    (sample.length + rest.1, 1 + rest.2)

/-- Children loop of `summarizeAst`. -/
def summarizeList : List AstNodeLite → Nat × Nat
  | [] => (0, 0)
  | n :: t =>
    let a := summarizeAst n
    let b := summarizeList t
    (a.1 + b.1, a.2 + b.2)

end

/-- One step of the `estimateTokensForAsts` accumulation loop
(`chars += c; nodes += n`). -/
def astTotalsStep (acc : Nat × Nat) (a : DetailedAst) : Nat × Nat :=
  let s := summarizeAst a.root
  (acc.1 + s.1, acc.2 + s.2)

/-- The `(chars, nodes)` totals accumulated by the `estimateTokensForAsts`
loop over a list of trees. -/
def astTotals (asts : List DetailedAst) : Nat × Nat :=
  asts.foldl astTotalsStep (0, 0)

/-- `estimateTokensForAsts`: `ceil(chars/4) + ceil(nodes/10)` over the summed
sample lengths and node counts (`Math.ceil(x/4) = (x+3)/4` on naturals). -/
def estimateTokensForAsts (asts : List DetailedAst) : Nat :=
  ((astTotals asts).1 + 3) / 4 + ((astTotals asts).2 + 9) / 10

/-! ## src/ast/parse.ts — slicing -/

/-- The match predicate of `sliceDetailedAST`'s DFS:
`hintTypes.length ? hintTypes.includes(node.type) : false` OR
`symbols.length ? symbols.some(sym => node.sample && node.sample.includes(sym)) : false`. -/
def sliceMatch (symbols hintTypes : List String) (n : AstNodeLite) : Bool :=
  (if hintTypes.length ≠ 0 then hintTypes.contains n.type else false)
  || (if symbols.length ≠ 0 then
        symbols.any (fun sym => !n.sample.data.isEmpty && jsIncludes n.sample sym)
      else false)

mutual

/-- The `dfs` of `sliceDetailedAST` with its `results` accumulator made
explicit: stop (returning the accumulator unchanged) once `maxNodes` results
were collected, otherwise append the node if it matches and keep descending
into its children. -/
def sliceDfs (symbols hintTypes : List String) (maxNodes : Nat) :
    AstNodeLite → List AstNodeLite → List AstNodeLite
  | .mk ty sp ep sample children, acc =>
    if acc.length ≥ maxNodes then acc
    else
      let self := AstNodeLite.mk ty sp ep sample children
      let acc1 := if sliceMatch symbols hintTypes self then acc ++ [self] else acc
      sliceDfsList symbols hintTypes maxNodes children acc1

/-- `node.children.forEach(dfs)`. -/
def sliceDfsList (symbols hintTypes : List String) (maxNodes : Nat) :
    List AstNodeLite → List AstNodeLite → List AstNodeLite
  | [], acc => acc
  | n :: t, acc =>
    sliceDfsList symbols hintTypes maxNodes t (sliceDfs symbols hintTypes maxNodes n acc)

end

/-- The synthetic root both slicers return, carrying the collected nodes as
children. -/
def syntheticRoot (cs : List AstNodeLite) : AstNodeLite :=
  .mk "root" ⟨0, 0⟩ ⟨0, 0⟩ "" cs

/-- `sliceDetailedAST(fullAst, {symbols = [], hintTypes = [], maxNodes = 200})`. -/
def sliceDetailedAST (fullAst : DetailedAst) (options : SliceHints) : DetailedAst :=
  let symbols := options.symbols.getD []
  let hintTypes := options.hintTypes.getD []
  let maxNodes := options.maxNodes.getD 200
  { fullAst with root := syntheticRoot (sliceDfs symbols hintTypes maxNodes fullAst.root []) }

/-- Segment parsing of one path string in `sliceByPaths`:
`p.split('.').filter(Boolean)`, then `.map(Number).filter(Number.isInteger)`;
the path is skipped (`none`) when some segment is lost. -/
def parsePathIdxs (p : String) : Option (List Int) :=
  let parts := (splitOnDot [] p.data).filter (fun cs => !cs.isEmpty)
  let idxs := parts.filterMap jsNumberIntChars
  if idxs.length ≠ parts.length then none else some idxs

/-- `getNodeByPath`: repeated indexed descent; `none` on a negative or
out-of-range index. -/
def getNodeByPath : AstNodeLite → List Int → Option AstNodeLite
  | cur, [] => some cur
  | cur, idx :: rest =>
    if h : 0 ≤ idx ∧ idx.toNat < cur.children.length then
      getNodeByPath (cur.children.get ⟨idx.toNat, h.2⟩) rest
    else none

/-- What one path contributes to `sliceByPaths`: the resolved subtree, or
`none` for a silently skipped path. -/
def resolvePath (ast : DetailedAst) (p : String) : Option AstNodeLite :=
  match parsePathIdxs p with
  | none => none
  | some idxs => getNodeByPath ast.root idxs

/-- The `picked` loop of `sliceByPaths`: skip unparsable paths, skip failed
descents, push resolved subtrees in order. -/
def pickByPaths (root : AstNodeLite) : List String → List AstNodeLite
  | [] => []
  | p :: rest =>
    match parsePathIdxs p with
    | none => pickByPaths root rest
    | some idxs =>
      match getNodeByPath root idxs with
      | some found => found :: pickByPaths root rest
      | none => pickByPaths root rest

/-- `sliceByPaths(ast, paths)`. -/
def sliceByPaths (ast : DetailedAst) (paths : List String) : DetailedAst :=
  { ast with root := syntheticRoot (pickByPaths ast.root paths) }

/-- `isNonEmptySlice`: the (synthetic) root has at least one child. -/
def isNonEmptySlice (ast : DetailedAst) : Bool :=
  !ast.root.children.isEmpty

/-! ## src/code/load.ts — reading literal line spans -/

/-- `Array.prototype.slice(a, b)` (non-negative indices). -/
def jsSlice {α : Type} (l : List α) (a b : Nat) : List α := (l.take b).drop a

/-- JavaScript `x | 0` on an integral number: ToInt32, wrapping into
`[-2^31, 2^31)`. -/
def toInt32 (x : Int) : Int :=
  let m := x % 4294967296
  if m < 2147483648 then m else m - 4294967296

/-- The pure core of `readFileLines`: split the file text on line breaks,
truncate the bounds to int32 (`lineStart | 0`, `lineEnd | 0`), clamp
`s = max(1, lineStart | 0)`, `e = max(s, lineEnd | 0)`, and join
`lines.slice(s-1, e)` with `\n`.  (The surrounding `try/readFile` that yields
`null` on I/O failure is modelled at the call site.) -/
def readFileLines (raw : String) (lineStart lineEnd : Int) : String :=
  let lines := jsSplitLines raw
  let s := max 1 (toInt32 lineStart)
  let e := max s (toInt32 lineEnd)
  jsJoin "\n" (jsSlice lines (s - 1).toNat e.toNat)

/-! ## src/prune/apply.ts — budgets, ranking, trimming -/

/-- Length of `JSON.stringify({files})` for escape-free file-path strings:
`{"files":[]}` is 12 characters, each entry adds its length plus two quotes,
entries after the first add a comma. -/
def jsonFilesLen (files : List String) : Nat :=
  12 + files.foldl (fun acc f => acc + f.length + 2) 0 +
    (if files.length ≤ 1 then 0 else files.length - 1)

/-- `estimateFixedPromptTokens`: 1200 + ceil(question.length/4) +
ceil(len(JSON.stringify({files: files.slice(0,200)}))/4) + 50 if pruned +
30 if droppedAll. -/
def estimateFixedPromptTokens (question : String) (filteredAst : Option FilteredAst)
    (pruned droppedAll : Bool) : Nat :=
  let filesArr := (filteredAst.map FilteredAst.files).getD []
  1200 + (question.length + 3) / 4 + (jsonFilesLen (filesArr.take 200) + 3) / 4 +
    (if pruned then 50 else 0) + (if droppedAll then 30 else 0)

/-- `calcAstBudget`: context-window based AST budget,
`max(0, floor((CTX - OUTPUT - fixed) * PROMPT_SAFETY))`; a window of `0`
disables the budget. -/
def calcAstBudget (cfg : Config) (question : String) (filteredAst : Option FilteredAst)
    (pruned droppedAll : Bool) : Int :=
  if cfg.MODEL_CTX_TOKENS ≤ 0 then 0
  else
    let fixed : Int := estimateFixedPromptTokens question filteredAst pruned droppedAll
    let usable := cfg.MODEL_CTX_TOKENS - cfg.OUTPUT_TOKENS_BUDGET - fixed
    max 0 (((usable : Rat) * cfg.PROMPT_SAFETY)).floor

/-- The heuristic score of `rankAndTrim`: +3 when the query is non-empty and
the lower-cased file path contains it, plus `min(3, top-level child count)`. -/
def rankScore (question : String) (a : DetailedAst) : Nat :=
  (if !(lowerStr question).data.isEmpty && jsIncludes (lowerStr a.filePath) (lowerStr question)
   then 3 else 0)
  + min 3 a.root.children.length

/-- Stable insertion (descending by `f`) below every earlier element of equal
or larger score; together with `sortDescBy` this is the unique stable
descending order that `Array.prototype.sort((x,y) => y.s - x.s)` produces. -/
def insertDescBy {α : Type} (f : α → Nat) (x : α) : List α → List α
  | [] => [x]
  | y :: t => if f x ≤ f y then y :: insertDescBy f x t else x :: y :: t

/-- Stable descending sort by `f`. -/
def sortDescBy {α : Type} (f : α → Nat) : List α → List α
  | [] => []
  | x :: t => insertDescBy f x (sortDescBy f t)

/-- `rankAndTrim(asts, question, k)`: pass the list through unchanged when
`k <= 0` or `asts.length <= k`, otherwise sort by descending score and keep
the first `k`. -/
def rankAndTrim (asts : List DetailedAst) (question : String) (k : Int) : List DetailedAst :=
  if k ≤ 0 ∨ (asts.length : Int) ≤ k then asts
  else (sortDescBy (rankScore question) asts).take k.toNat

/-- The greedy loop of `trimToTokenBudget` with its running total `used`:
stop at the first tree whose per-file estimate would push `used` past the
budget. -/
def trimGo (budget : Int) : Nat → List DetailedAst → List DetailedAst
  | _, [] => []
  | used, a :: rest =>
    let t := estimateTokensForAsts [a]
    if ((used + t : Nat) : Int) > budget then []
    else a :: trimGo budget (used + t) rest

/-- `trimToTokenBudget(asts, budget)`; `budget <= 0` disables trimming and
returns the input unchanged. -/
def trimToTokenBudget (asts : List DetailedAst) (budget : Int) : List DetailedAst :=
  if budget ≤ 0 then asts else trimGo budget 0 asts

/-- `pushPruneTrace`. -/
def pushPruneTrace (tr : Option TraceBuffer) (item : PruneTraceItem) : TraceBuffer :=
  let base := tr.getD emptyTrace
  { base with prune := base.prune ++ [item] }

/-- Last-wins lookup in the plan's slice rules
(`for (const s of plan.slice) sliceRules.set(s.file, …)` then `.get(file)`). -/
def findRule (rules : List SliceRule) (file : String) : Option SliceRule :=
  rules.foldl (fun acc r => if r.file == file then some r else acc) none

/-- One iteration of the keep/slice/drop loop of `applyPrunePlan`, threading
the `(kept, droppedNames)` accumulators: drop-set first, then keep-full,
then the slice rule (predicate slice if `by` present, then path slice if
`paths` non-empty, kept iff non-empty), else dropped. -/
def pruneStep (keepFull : List String) (rules : List SliceRule) (dropSet : List String)
    (acc : List DetailedAst × List String) (ast : DetailedAst) :
    List DetailedAst × List String :=
  if dropSet.contains ast.filePath then (acc.1, acc.2 ++ [ast.filePath])
  else if keepFull.contains ast.filePath then (acc.1 ++ [ast], acc.2)
  else
    match findRule rules ast.filePath with
    | some rule =>
      let s1 := match rule.byHints with
        | some h => sliceDetailedAST ast h
        | none => ast
      let s2 := match rule.paths with
        | some ps => if ps.length ≠ 0 then sliceByPaths s1 ps else s1
        | none => s1
      if isNonEmptySlice s2 then (acc.1 ++ [s2], acc.2)
      else (acc.1, acc.2 ++ [ast.filePath])
    | none => (acc.1, acc.2 ++ [ast.filePath])

/-- `Array.from(new Set(l))`: first occurrences, in order. -/
def dedupFirst (seen : List String) : List String → List String
  | [] => []
  | x :: t => if seen.contains x then dedupFirst seen t else x :: dedupFirst (seen ++ [x]) t

/-- `applyPrunePlan(state, plan)`: the DROP_ALL branch (when permitted),
otherwise the keep/slice/drop resolution followed by the server-enforced
file-count and token-budget caps and the trace update. -/
def applyPrunePlan (cfg : Config) (state : GraphState) (plan : PrunePlan) : GraphState :=
  if cfg.PRUNE_ALLOW_DROP_ALL && (plan.mode == "DROP_ALL") then
    { state with
      prunedAsts := some []
      prunePlan := some plan
      prunePlanApplied := some { mode := "DROP_ALL" }
      droppedAll := some true
      followups := []
      trace := some (pushPruneTrace state.trace
        { mode := "DROP_ALL"
          plannedFiles := state.detailedAsts.map DetailedAst.filePath
          keptFiles := []
          droppedFiles := state.detailedAsts.map DetailedAst.filePath
          estTokensBefore := estimateTokensForAsts state.detailedAsts
          estTokensAfter := 0 }) }
  else
    let keptDropped :=
      state.detailedAsts.foldl (pruneStep plan.keep_full plan.slice plan.drop) ([], [])
    let kept := keptDropped.1
    let droppedNames := keptDropped.2
    let before := estimateTokensForAsts state.detailedAsts
    let dynamicBudget := calcAstBudget cfg state.question state.filteredAst true false
    let pruned :=
      if cfg.PRUNE_SERVER_ENFORCE_LIMITS then
        let p1 :=
          if cfg.PROMPT_MAX_FILES > 0 ∧ (kept.length : Int) > cfg.PROMPT_MAX_FILES then
            rankAndTrim kept state.question cfg.PROMPT_MAX_FILES
          else kept
        if dynamicBudget > 0 then trimToTokenBudget p1 dynamicBudget
        else if cfg.MAX_AST_TOKENS > 0 then trimToTokenBudget p1 cfg.MAX_AST_TOKENS
        else p1
      else kept
    { state with
      prunedAsts := some pruned
      prunePlan := some plan
      prunePlanApplied := some { plan with drop := dedupFirst [] (droppedNames ++ plan.drop) }
      droppedAll := some pruned.isEmpty
      trace := some (pushPruneTrace state.trace
        { mode := plan.mode
          plannedFiles := state.detailedAsts.map DetailedAst.filePath
          keptFiles := pruned.map DetailedAst.filePath
          droppedFiles := (state.detailedAsts.map DetailedAst.filePath).filter
            (fun f => !(pruned.any (fun p => p.filePath == f)))
          estTokensBefore := before
          estTokensAfter := estimateTokensForAsts pruned }) }

/-! ## src/graph/machine.ts and src/graph/nodes.ts — the exploration loop

The LangGraph pipeline is
`load_filtered → decide_files → get_details → prune_ast → select_code_ranges
→ load_code_slices → answer_from_code`, with a conditional edge after
`answer_from_code` that goes to the `decide_files_again` node when
`shouldLoop` holds and to `END` otherwise, and an edge
`decide_files_again → get_details`.

The external collaborators are made explicit: `Oracle` supplies the parsed
LLM responses of each decision point (indexed by the number of back-edge
traversals taken so far), and `FsModel` supplies the filtered index, the
per-file parse results (a file that is absent fails to parse and is skipped,
exactly like the `try/catch` in `nodeGetDetailedAsts`), and file texts. -/

/-- Parsed LLM responses per pipeline pass (pass 0 is the initial run,
pass `k+1` follows the `k+1`-st back-edge). -/
structure Oracle where
  decideWant : Nat → List String
  decideHints : Nat → Option SliceHints
  prunePlanOf : Nat → PrunePlan
  rangesOf : Nat → List CodeRange
  answerText : Nat → String
  answerFollowups : Nat → List String

/-- File-system model: the filtered index plus the files that stat+parse
successfully and the readable file texts. -/
structure FsModel where
  filteredAst : FilteredAst
  parseResult : List (String × DetailedAst)
  fileText : List (String × String)

/-- Association-list lookup (first match). -/
def lookupFs {α : Type} (l : List (String × α)) (key : String) : Option α :=
  (l.find? (fun p => p.1 == key)).map Prod.snd

/-- JavaScript `arr[i] = v` on an array of arrays, extending with holes
(observed as empty arrays by `.flat()` and index reads) when `i` is past the
end. -/
def setIdx (l : List (List String)) (i : Nat) (v : List String) : List (List String) :=
  if i < l.length then l.set i v
  else l ++ List.replicate (i - l.length) [] ++ [v]

/-- `initialState` of src/graph/nodes.ts. -/
def initialState (question : String) : GraphState :=
  { question := question, filteredAst := none, wantFiles := [], sliceHints := none,
    detailedAsts := [], modeUsed := "slice", answer := "", followups := [],
    loopCount := 0, trace := some emptyTrace }

/-- `nodeLoadFilteredAst`: inject the filtered index. -/
def nodeLoadFilteredAstM (fs : FsModel) (st : GraphState) : GraphState :=
  { st with filteredAst := some fs.filteredAst }

/-- `nodeDecideFiles` (LLM path with a well-formed response): record the
requested files at `_trace.filesRequested[iterations]` and store
`wantFiles` / `sliceHints`. -/
def nodeDecideFilesM (orc : Oracle) (k : Nat) (st : GraphState) : GraphState :=
  let wantFiles := orc.decideWant k
  let tr := st.trace.getD emptyTrace
  let tr := { tr with filesRequested := setIdx tr.filesRequested tr.iterations wantFiles }
  { st with wantFiles := wantFiles, sliceHints := orc.decideHints k, trace := some tr }

/-- `nodeGetDetailedAsts`: parse each requested file, silently skipping
failures, and record the successfully parsed paths at
`_trace.filesParsed[iterations]`. -/
def nodeGetDetailedAstsM (fs : FsModel) (st : GraphState) : GraphState :=
  if st.wantFiles.isEmpty then
    let tr := st.trace.getD emptyTrace
    let tr := { tr with filesParsed := setIdx tr.filesParsed tr.iterations [] }
    { st with detailedAsts := [], trace := some tr }
  else
    let results := st.wantFiles.filterMap (fun f => lookupFs fs.parseResult f)
    let tr := st.trace.getD emptyTrace
    let tr := { tr with
      filesParsed := setIdx tr.filesParsed tr.iterations (results.map DetailedAst.filePath) }
    { st with detailedAsts := results, trace := some tr }

/-- `nodePruneAst`: with no detailed trees, reset `prunedAsts`/`droppedAll`;
otherwise collect a plan from the oracle and apply it. -/
def nodePruneAstM (cfg : Config) (orc : Oracle) (k : Nat) (st : GraphState) : GraphState :=
  if st.detailedAsts.isEmpty then { st with prunedAsts := some [], droppedAll := some false }
  else applyPrunePlan cfg st (orc.prunePlanOf k)

/-- `nodeSelectCodeRanges` (LLM path): over the pruned trees when non-empty,
else the detailed trees; an empty source yields no ranges. -/
def nodeSelectCodeRangesM (orc : Oracle) (k : Nat) (st : GraphState) : GraphState :=
  let sourceForPlan :=
    match st.prunedAsts with
    | some l => if !l.isEmpty then l else st.detailedAsts
    | none => st.detailedAsts
  if sourceForPlan.isEmpty then { st with codeRanges := some [] }
  else { st with codeRanges := some (orc.rangesOf k) }

/-- The range-loading loop of `nodeLoadCodeSlices`, threading `totalBytes`:
an unreadable file is skipped, and the first slice that would push the byte
total past `CODE_MAX_BYTES` stops acceptance. -/
def loadSlicesLoop (cfg : Config) (fs : FsModel) : Nat → List CodeRange → List CodeSlice
  | _, [] => []
  | totalBytes, r :: rest =>
    match lookupFs fs.fileText r.file with
    | none => loadSlicesLoop cfg fs totalBytes rest
    | some raw =>
      let code := readFileLines raw r.startLine r.endLine
      let bytes := code.utf8ByteSize
      if cfg.CODE_MAX_BYTES > 0 ∧ ((totalBytes + bytes : Nat) : Int) > cfg.CODE_MAX_BYTES then []
      else
        { file := r.file, startLine := r.startLine, endLine := r.endLine,
          code := code, rationale := r.rationale } :: loadSlicesLoop cfg fs (totalBytes + bytes) rest

/-- The optional token cut of `nodeLoadCodeSlices`
(`ceil(code.length/4)` per slice, greedy prefix). -/
def codeTokenTrim (hardBudget : Int) : Nat → List CodeSlice → List CodeSlice
  | _, [] => []
  | used, s :: rest =>
    let t := (s.code.length + 3) / 4
    if ((used + t : Nat) : Int) > hardBudget then []
    else s :: codeTokenTrim hardBudget (used + t) rest

/-- `nodeLoadCodeSlices`. -/
def nodeLoadCodeSlicesM (cfg : Config) (fs : FsModel) (st : GraphState) : GraphState :=
  let ranges := st.codeRanges.getD []
  if ranges.isEmpty then { st with codeSlices := some [] }
  else
    let picked := if cfg.CODE_MAX_FILES > 0 then ranges.take cfg.CODE_MAX_FILES.toNat else ranges
    let slices := loadSlicesLoop cfg fs 0 picked
    if cfg.MAX_CODE_TOKENS > 0 then
      { st with codeSlices := some (codeTokenTrim cfg.MAX_CODE_TOKENS 0 slices) }
    else { st with codeSlices := some slices }

/-- `nodeAnswerFromCode` (LLM path with a well-formed response). -/
def nodeAnswerFromCodeM (orc : Oracle) (k : Nat) (st : GraphState) : GraphState :=
  { st with answer := orc.answerText k, followups := orc.answerFollowups k }

/-- The expansion-intent keywords of `shouldLoop`'s case-insensitive regex
`/파일|file|module|더|expand|detail/i`. -/
def loopKeywords : List String := ["파일", "file", "module", "더", "expand", "detail"]

/-- `shouldLoop`: no loop after a full drop, no loop without follow-ups, no
loop unless the follow-up text matches the expansion-intent pattern, and no
loop unless some requested file was never parsed. -/
def shouldLoop (st : GraphState) : Bool :=
  if st.droppedAll.getD false then false
  else if st.followups.isEmpty then false
  else
    let text := jsJoin " " st.followups
    if !(loopKeywords.any (fun kw => jsIncludes (lowerStr text) kw)) then false
    else
      let parsedAll := (st.trace.getD emptyTrace).filesParsed.flatten
      st.wantFiles.any (fun f => !parsedAll.contains f)

/-- The `decide_files_again` node: re-run `nodeDecideFiles`, bump
`_loopCount` and `_trace.iterations`, drop already-parsed files from the new
request, and clear the follow-ups when that empties the request. -/
def nodeDecideFilesAgainM (orc : Oracle) (k : Nat) (st : GraphState) : GraphState :=
  let next := nodeDecideFilesM orc k st
  let next := { next with loopCount := st.loopCount + 1 }
  let tr := next.trace.getD emptyTrace
  let tr := { tr with iterations := tr.iterations + 1 }
  let parsedAll := tr.filesParsed.flatten
  let filtered := next.wantFiles.filter (fun f => !parsedAll.contains f)
  let next := { next with wantFiles := filtered }
  let next := if filtered.isEmpty then { next with followups := [] } else next
  { next with trace := some tr }

/-- The pipeline segment `get_details → prune_ast → select_code_ranges →
load_code_slices → answer_from_code` (the part both the initial pass and
every back-edge pass traverse). -/
def pipelineTail (cfg : Config) (fs : FsModel) (orc : Oracle) (k : Nat)
    (st : GraphState) : GraphState :=
  nodeAnswerFromCodeM orc k
    (nodeLoadCodeSlicesM cfg fs
      (nodeSelectCodeRangesM orc k
        (nodePruneAstM cfg orc k
          (nodeGetDetailedAstsM fs st))))

/-- The conditional edge after `answer_from_code`, iterated: while
`shouldLoop` holds, traverse the back-edge (`decide_files_again`) and re-run
the pipeline tail.  `fuel` only bounds how many back-edge traversals the
*model* unfolds — the compiled graph itself contains no such bound, which is
exactly what the loop-count theorem exploits. -/
def graphLoop (cfg : Config) (fs : FsModel) (orc : Oracle) :
    Nat → Nat → GraphState → GraphState
  | 0, _, st => st
  | fuel + 1, k, st =>
    if shouldLoop st then
      graphLoop cfg fs orc fuel (k + 1)
        (pipelineTail cfg fs orc (k + 1) (nodeDecideFilesAgainM orc (k + 1) st))
    else st

/-- One full run of the compiled graph on a question, with `fuel` available
back-edge traversals. -/
def runGraphModel (cfg : Config) (fs : FsModel) (orc : Oracle) (fuel : Nat)
    (question : String) : GraphState :=
  graphLoop cfg fs orc fuel 0
    (pipelineTail cfg fs orc 0
      (nodeDecideFilesM orc 0
        (nodeLoadFilteredAstM fs (initialState question))))

/-! ## Claim-side definitions and concrete instances -/

/-- A one-node tree with `sample = "x"`: totals `(1, 1)`, so its individual
estimate is `ceil(1/4) + ceil(1/10) = 2`, while the joint totals of three
copies are `(3, 3)` with joint estimate still `2`. -/
def tSmall : DetailedAst := ⟨"src/t.ts", "typescript", .mk "identifier" ⟨0, 0⟩ ⟨0, 0⟩ "x" []⟩

/-- A tree whose score against the question `"a.ts"` is `0` (path mismatch,
no top-level children). -/
def tLo : DetailedAst := ⟨"src/zz.ts", "typescript", .mk "program" ⟨0, 0⟩ ⟨0, 0⟩ "" []⟩

/-- A tree whose score against the question `"a.ts"` is `4` (path contains
the question, one top-level child). -/
def tHi : DetailedAst :=
  ⟨"src/a.ts", "typescript", .mk "program" ⟨0, 0⟩ ⟨0, 0⟩ ""
    [.mk "function_declaration" ⟨0, 0⟩ ⟨0, 0⟩ "f" []]⟩

/-- A two-level tree used to exercise invalid paths. -/
def astPaths : DetailedAst :=
  ⟨"src/p.ts", "typescript", .mk "program" ⟨0, 0⟩ ⟨0, 0⟩ ""
    [.mk "identifier" ⟨0, 0⟩ ⟨0, 0⟩ "x" []]⟩

/-- The first-match per-file resolution rule stated by the specification
(drop set, then keep-full set, then the slice rule — predicate slice first,
path slice second, kept iff the synthetic root is non-empty — and files
mentioned nowhere are dropped): `some kept-tree` or `none` for dropped. -/
def resolveFile (plan : PrunePlan) (ast : DetailedAst) : Option DetailedAst :=
  if plan.drop.contains ast.filePath then none
  else if plan.keep_full.contains ast.filePath then some ast
  else
    match findRule plan.slice ast.filePath with
    | some rule =>
      let s1 := match rule.byHints with
        | some h => sliceDetailedAST ast h
        | none => ast
      let s2 := match rule.paths with
        | some ps => if ps.length ≠ 0 then sliceByPaths s1 ps else s1
        | none => s1
      if isNonEmptySlice s2 then some s2 else none
    | none => none

/-- The name a dropped file contributes to `droppedNames`. -/
def resolveDropName (plan : PrunePlan) (ast : DetailedAst) : Option String :=
  match resolveFile plan ast with
  | some _ => none
  | none => some ast.filePath

/-- Full tree for `src/a.ts` (scenario of C1). -/
def treeA : DetailedAst :=
  ⟨"src/a.ts", "typescript", .mk "program" ⟨0, 0⟩ ⟨0, 0⟩ "const a"
    [.mk "lexical_declaration" ⟨0, 0⟩ ⟨0, 0⟩ "const a = 1" []]⟩

/-- Full tree for `src/b.ts` (scenario of C1). -/
def treeB : DetailedAst :=
  ⟨"src/b.ts", "typescript", .mk "program" ⟨0, 0⟩ ⟨0, 0⟩ "const b" []⟩

/-- Configuration with the server-enforced caps disabled. -/
def cfgOff : Config :=
  { PRUNE_ALLOW_DROP_ALL := true, PRUNE_SERVER_ENFORCE_LIMITS := false,
    PROMPT_MAX_FILES := 0, MAX_AST_TOKENS := 0, MODEL_CTX_TOKENS := 0,
    OUTPUT_TOKENS_BUDGET := 1500, PROMPT_SAFETY := 4 / 5,
    CODE_MAX_FILES := 6, CODE_MAX_BYTES := 200000, MAX_CODE_TOKENS := 0 }

/-- Default-like configuration (drop-all permitted, caps enforced, no
explicit file/token caps). -/
def cfgOn : Config :=
  { PRUNE_ALLOW_DROP_ALL := true, PRUNE_SERVER_ENFORCE_LIMITS := true,
    PROMPT_MAX_FILES := 0, MAX_AST_TOKENS := 0, MODEL_CTX_TOKENS := 0,
    OUTPUT_TOKENS_BUDGET := 1500, PROMPT_SAFETY := 4 / 5,
    CODE_MAX_FILES := 6, CODE_MAX_BYTES := 200000, MAX_CODE_TOKENS := 0 }

/-- State holding the two scenario trees and a pending follow-up hint. -/
def stAB : GraphState :=
  { question := "what", detailedAsts := [treeA, treeB], followups := ["pending hint"] }

/-- Scenario plan `{mode: KEEP_SOME, keep_full: [src/a.ts], slice: [],
drop: [src/b.ts]}`. -/
def planAB : PrunePlan :=
  { mode := "KEEP_SOME", keep_full := ["src/a.ts"], slice := [], drop := ["src/b.ts"] }

/-- A `DROP_ALL` plan (with rules that must be ignored). -/
def planDrop : PrunePlan :=
  { mode := "DROP_ALL", keep_full := ["src/a.ts"], slice := [], drop := [] }

/-- A minimal `KEEP_SOME` plan. -/
def planKeep : PrunePlan := { mode := "KEEP_SOME" }

/-- Matched parent and matched nested child for the predicate slice (C10). -/
def dupChild : AstNodeLite := .mk "function_declaration" ⟨0, 0⟩ ⟨0, 0⟩ "inner" []

/-- Parent node of C10: matches the hint type and contains `dupChild`. -/
def dupParent : AstNodeLite := .mk "function_declaration" ⟨0, 0⟩ ⟨0, 0⟩ "outer" [dupChild]

/-- Tree whose root holds `dupParent` (C10). -/
def astDup : DetailedAst :=
  ⟨"src/f.ts", "typescript", .mk "program" ⟨0, 0⟩ ⟨0, 0⟩ "" [dupParent]⟩

/-- File-system model for the loop run: the requested file never parses. -/
def fsLoop : FsModel := ⟨⟨["src/app.ts"]⟩, [], []⟩

/-- Oracle for the loop run: every decision pass requests `ghost.ts` (which
fails to parse) and every answer pass returns an expansion-intent follow-up. -/
def oracleLoop : Oracle :=
  { decideWant := fun _ => ["ghost.ts"], decideHints := fun _ => none,
    prunePlanOf := fun _ => { mode := "KEEP_SOME" }, rangesOf := fun _ => [],
    answerText := fun _ => "so far incomplete", answerFollowups := fun _ => ["need more detail"] }

/-! ## Shared lemmas about the token estimator -/

/-- Sum of the per-file estimates — the quantity the greedy trimming loops
accumulate in their `used` counter. -/
def perFileEstimates (l : List DetailedAst) : Nat :=
  (l.map (fun a => estimateTokensForAsts [a])).sum

theorem astTotals_foldl (l : List DetailedAst) (acc : Nat × Nat) :
    l.foldl astTotalsStep acc = (acc.1 + (astTotals l).1, acc.2 + (astTotals l).2) := by
  induction l generalizing acc with
  | nil => simp [astTotals]
  | cons a t ih =>
    have h1 := ih (astTotalsStep acc a)
    have h2 := ih (astTotalsStep (0, 0) a)
    have hc : astTotals (a :: t) = List.foldl astTotalsStep (astTotalsStep (0, 0) a) t := rfl
    simp only [List.foldl_cons]
    rw [h1, hc, h2]
    simp [astTotalsStep, Prod.mk.injEq]
    try omega

theorem astTotals_cons (a : DetailedAst) (l : List DetailedAst) :
    astTotals (a :: l) = ((summarizeAst a.root).1 + (astTotals l).1,
      (summarizeAst a.root).2 + (astTotals l).2) := by
  have hc : astTotals (a :: l) = List.foldl astTotalsStep (astTotalsStep (0, 0) a) l := rfl
  rw [hc, astTotals_foldl l (astTotalsStep (0, 0) a)]
  simp [astTotalsStep, Prod.mk.injEq]

theorem astTotals_single (a : DetailedAst) :
    astTotals [a] = ((summarizeAst a.root).1, (summarizeAst a.root).2) := by
  simp [astTotals, astTotalsStep]

theorem estimate_le_perFile (l : List DetailedAst) :
    estimateTokensForAsts l ≤ perFileEstimates l := by
  induction l with
  | nil => simp [estimateTokensForAsts, astTotals, perFileEstimates]
  | cons a t ih =>
    have hstep : estimateTokensForAsts (a :: t)
        ≤ estimateTokensForAsts [a] + estimateTokensForAsts t := by
      simp only [estimateTokensForAsts, astTotals_cons, astTotals_single]
      omega
    have hsum : perFileEstimates (a :: t) = estimateTokensForAsts [a] + perFileEstimates t := by
      simp [perFileEstimates]
    omega

theorem perFileEstimates_cons (a : DetailedAst) (l : List DetailedAst) :
    perFileEstimates (a :: l) = estimateTokensForAsts [a] + perFileEstimates l := by
  simp [perFileEstimates]

/-- C6 — the estimator is monotonic under adding a tree. -/
theorem estimateTokensForAsts_monotone (trees : List DetailedAst) (t : DetailedAst) :
    estimateTokensForAsts trees ≤ estimateTokensForAsts (trees ++ [t]) := by
  have h : astTotals (trees ++ [t])
      = ((astTotals trees).1 + (summarizeAst t.root).1,
         (astTotals trees).2 + (summarizeAst t.root).2) := by
    simp [astTotals, List.foldl_append, astTotalsStep]
  simp only [estimateTokensForAsts, h]
  omega

/-! ## Lemmas about the greedy budget trim -/

theorem trimGo_prefix (budget : Int) :
    ∀ (l : List DetailedAst) (used : Nat), List.IsPrefix (trimGo budget used l) l := by
  intro l
  induction l with
  | nil => intro used; simp [trimGo]
  | cons a t ih =>
    intro used
    simp only [trimGo]
    split
    · exact List.nil_prefix
    · obtain ⟨r, hr⟩ := ih (used + estimateTokensForAsts [a])
      exact ⟨r, by rw [List.cons_append, hr]⟩

theorem trimGo_total_le (budget : Int) :
    ∀ (l : List DetailedAst) (used : Nat), (used : Int) ≤ budget →
      ((used : Int) + perFileEstimates (trimGo budget used l)) ≤ budget := by
  intro l
  induction l with
  | nil =>
    intro used h
    simp [trimGo, perFileEstimates]
    exact h
  | cons a t ih =>
    intro used h
    simp only [trimGo]
    split
    · simpa [perFileEstimates] using h
    · rename_i hover
      have hle : ((used + estimateTokensForAsts [a] : Nat) : Int) ≤ budget := by omega
      have := ih (used + estimateTokensForAsts [a]) hle
      rw [perFileEstimates_cons]
      push_cast at this ⊢
      omega

theorem trimGo_reject (budget : Int) :
    ∀ (l : List DetailedAst) (used : Nat) (next : DetailedAst),
      l[(trimGo budget used l).length]? = some next →
      ((used : Int) + perFileEstimates (trimGo budget used l)
        + estimateTokensForAsts [next]) > budget := by
  intro l
  induction l with
  | nil => intro used next h; simp at h
  | cons a t ih =>
    intro used next h
    simp only [trimGo] at h ⊢
    split at h
    · rename_i hover
      simp only [List.length_nil, List.getElem?_cons_zero, Option.some.injEq] at h
      subst h
      rw [if_pos hover]
      simp only [perFileEstimates, List.map_nil, List.sum_nil]
      push_cast at hover ⊢
      omega
    · rename_i hover
      simp only [List.length_cons, List.getElem?_cons_succ] at h
      have := ih (used + estimateTokensForAsts [a]) next h
      rw [if_neg hover]
      simp only [List.length_cons, perFileEstimates_cons]
      push_cast at this ⊢
      omega

/-! ## C4 — trimToTokenBudget -/

/-- C4 counterexample — the claim quantifies over *every* budget value and
asserts (i) the returned prefix's cumulative estimate is ≤ budget and
(ii) appending the first rejected tree would make the cumulative estimate
exceed budget.  Both parts fail on the code: at `budget = 0` the budget is
disabled and the whole input comes back with estimate `2 > 0`; at
`budget = 4` the third copy of `tSmall` is rejected even though the
cumulative (joint) estimate of all three is `2 ≤ 4` — the loop compares the
running total of per-file estimates, not the joint estimate. -/
theorem trimToTokenBudget_claim_counterexample :
    (trimToTokenBudget [tSmall] 0 = [tSmall]
      ∧ (0 : Int) < (estimateTokensForAsts [tSmall] : Int))
    ∧ (trimToTokenBudget [tSmall, tSmall, tSmall] 4 = [tSmall, tSmall]
      ∧ (estimateTokensForAsts [tSmall, tSmall, tSmall] : Int) ≤ 4) :=
  ⟨⟨rfl, by decide⟩, rfl, by decide⟩

/-- C4 (amended) — for every *positive* budget, `trimToTokenBudget` returns a
prefix of its input (order preserved); the running total of per-file
estimates — the quantity the code accumulates — is ≤ budget, hence so is the
joint cumulative estimate; and if some input tree was rejected, accepting the
first rejected tree would push the running total of per-file estimates over
the budget.  A budget ≤ 0 disables trimming and returns the input unchanged. -/
theorem trimToTokenBudget_amended (asts : List DetailedAst) (budget : Int) :
    (0 < budget →
      List.IsPrefix (trimToTokenBudget asts budget) asts
      ∧ (perFileEstimates (trimToTokenBudget asts budget) : Int) ≤ budget
      ∧ (estimateTokensForAsts (trimToTokenBudget asts budget) : Int) ≤ budget
      ∧ ∀ next : DetailedAst, asts[(trimToTokenBudget asts budget).length]? = some next →
          ((perFileEstimates (trimToTokenBudget asts budget) : Int)
            + estimateTokensForAsts [next]) > budget)
    ∧ (budget ≤ 0 → trimToTokenBudget asts budget = asts) := by
  constructor
  · intro hb
    have hne : ¬ budget ≤ 0 := by omega
    have hdef : trimToTokenBudget asts budget = trimGo budget 0 asts := by
      simp [trimToTokenBudget, hne]
    refine ⟨?_, ?_, ?_, ?_⟩
    · rw [hdef]; exact trimGo_prefix budget asts 0
    · rw [hdef]
      have := trimGo_total_le budget asts 0 (by omega)
      simpa using this
    · rw [hdef]
      have h1 := trimGo_total_le budget asts 0 (by omega)
      have h2 := estimate_le_perFile (trimGo budget 0 asts)
      push_cast at h1 ⊢
      omega
    · intro next hnext
      rw [hdef] at hnext ⊢
      have := trimGo_reject budget asts 0 next hnext
      simpa using this
  · intro hb
    simp [trimToTokenBudget, hb]

/-- C4 witness — the amended theorem at `asts = [tSmall]`, `budget = 2`. -/
theorem trimToTokenBudget_amended_witness :
    List.IsPrefix (trimToTokenBudget [tSmall] 2) [tSmall]
    ∧ (perFileEstimates (trimToTokenBudget [tSmall] 2) : Int) ≤ 2
    ∧ (estimateTokensForAsts (trimToTokenBudget [tSmall] 2) : Int) ≤ 2
    ∧ ∀ next : DetailedAst, [tSmall][(trimToTokenBudget [tSmall] 2).length]? = some next →
        ((perFileEstimates (trimToTokenBudget [tSmall] 2) : Int)
          + estimateTokensForAsts [next]) > 2 :=
  (trimToTokenBudget_amended [tSmall] 2).1 (by norm_num)

/-! ## C5 — rankAndTrim -/

theorem mem_insertDescBy {α : Type} (f : α → Nat) (x : α) (l : List α) (z : α) :
    z ∈ insertDescBy f x l ↔ z = x ∨ z ∈ l := by
  induction l with
  | nil => simp [insertDescBy]
  | cons y t ih =>
    simp only [insertDescBy]
    split
    · simp only [List.mem_cons, ih]
      tauto
    · simp [List.mem_cons]

theorem pairwise_insertDescBy {α : Type} (f : α → Nat) (x : α) (l : List α)
    (h : l.Pairwise (fun a b => f b ≤ f a)) :
    (insertDescBy f x l).Pairwise (fun a b => f b ≤ f a) := by
  induction l with
  | nil => simp [insertDescBy]
  | cons y t ih =>
    rw [List.pairwise_cons] at h
    obtain ⟨hy, ht⟩ := h
    simp only [insertDescBy]
    split
    · rename_i hxy
      rw [List.pairwise_cons]
      refine ⟨?_, ih ht⟩
      intro z hz
      rcases (mem_insertDescBy f x t z).mp hz with rfl | hzt
      · exact hxy
      · exact hy z hzt
    · rename_i hxy
      rw [List.pairwise_cons]
      refine ⟨?_, List.pairwise_cons.mpr ⟨hy, ht⟩⟩
      intro z hz
      rcases List.mem_cons.mp hz with rfl | hzt
      · omega
      · have := hy z hzt
        omega

theorem pairwise_sortDescBy {α : Type} (f : α → Nat) (l : List α) :
    (sortDescBy f l).Pairwise (fun a b => f b ≤ f a) := by
  induction l with
  | nil => simp [sortDescBy]
  | cons x t ih => exact pairwise_insertDescBy f x _ ih

theorem length_insertDescBy {α : Type} (f : α → Nat) (x : α) (l : List α) :
    (insertDescBy f x l).length = l.length + 1 := by
  induction l with
  | nil => simp [insertDescBy]
  | cons y t ih =>
    simp only [insertDescBy]
    split
    · simp [ih]
    · simp

theorem length_sortDescBy {α : Type} (f : α → Nat) (l : List α) :
    (sortDescBy f l).length = l.length := by
  induction l with
  | nil => simp [sortDescBy]
  | cons x t ih => simp [sortDescBy, length_insertDescBy, ih]

/-- C5 counterexample — the claim asserts `rankAndTrim` returns at most `k`
items for *every* `k`; at `k = 0` the code's early return
(`k <= 0 || asts.length <= k`) hands back the whole input, here one item. -/
theorem rankAndTrim_claim_counterexample :
    rankAndTrim [tLo] "q" 0 = [tLo] ∧ ¬ ((rankAndTrim [tLo] "q" 0).length ≤ 0) :=
  ⟨rfl, by decide⟩

/-- C5 (amended) — when `0 < k < asts.length`, `rankAndTrim` returns exactly
`k` items sorted by non-increasing score (the code's score: +3 when the
question is non-empty and the lower-cased path contains it, plus
`min(3, top-level child count)`); when `k ≤ 0` or `k ≥ asts.length` the
input list is returned unchanged (so it may hold more than `k` items and in
arbitrary score order). -/
theorem rankAndTrim_amended (asts : List DetailedAst) (question : String) (k : Int) :
    (0 < k → k < (asts.length : Int) →
      ((rankAndTrim asts question k).length : Int) = k
      ∧ (rankAndTrim asts question k).Pairwise
          (fun a b => rankScore question b ≤ rankScore question a))
    ∧ ((k ≤ 0 ∨ (asts.length : Int) ≤ k) → rankAndTrim asts question k = asts) := by
  constructor
  · intro hk hlen
    have hcond : ¬ (k ≤ 0 ∨ (asts.length : Int) ≤ k) := by omega
    have hdef : rankAndTrim asts question k
        = (sortDescBy (rankScore question) asts).take k.toNat := by
      simp only [rankAndTrim]
      rw [if_neg hcond]
    constructor
    · rw [hdef, List.length_take, length_sortDescBy]
      have h1 : k.toNat ≤ asts.length := by omega
      rw [min_eq_left h1]
      omega
    · rw [hdef]
      exact (pairwise_sortDescBy (rankScore question) asts).sublist (List.take_sublist _ _)
  · intro h
    simp only [rankAndTrim]
    rw [if_pos h]

/-- C5 witness — the amended theorem at two trees with scores `0` and `4`
against question `"a.ts"` and `k = 1`. -/
theorem rankAndTrim_amended_witness :
    ((rankAndTrim [tLo, tHi] "a.ts" 1).length : Int) = 1
    ∧ (rankAndTrim [tLo, tHi] "a.ts" 1).Pairwise
        (fun a b => rankScore "a.ts" b ≤ rankScore "a.ts" a) :=
  (rankAndTrim_amended [tLo, tHi] "a.ts" 1).1 (by norm_num) (by norm_num)

/-! ## C7 — sliceByPaths never fails, it silently skips -/

theorem pickByPaths_eq_filterMap (ast : DetailedAst) (paths : List String) :
    pickByPaths ast.root paths = paths.filterMap (resolvePath ast) := by
  induction paths with
  | nil => simp [pickByPaths]
  | cons p rest ih =>
    simp only [pickByPaths, List.filterMap_cons, resolvePath]
    cases hp : parsePathIdxs p with
    | none => simpa using ih
    | some idxs =>
      cases hg : getNodeByPath ast.root idxs with
      | none => simpa [hg] using ih
      | some found => simp [hg, ih]

/-- C7 — for every tree and path list, `sliceByPaths` is total and the
synthetic root's children are exactly the successfully resolved paths in
order; a path with a non-numeric segment or a negative/out-of-range index
resolves to `none` (see `parsePathIdxs`/`getNodeByPath`) and is omitted, and
when every supplied path is invalid the synthetic root is empty. -/
theorem sliceByPaths_silent_skip (ast : DetailedAst) (paths : List String) :
    (sliceByPaths ast paths).root.children = paths.filterMap (resolvePath ast)
    ∧ ((∀ p ∈ paths, resolvePath ast p = none) →
        (sliceByPaths ast paths).root.children = []) := by
  have hchild : (sliceByPaths ast paths).root.children = pickByPaths ast.root paths := rfl
  constructor
  · rw [hchild, pickByPaths_eq_filterMap]
  · intro hall
    rw [hchild, pickByPaths_eq_filterMap]
    exact List.filterMap_eq_nil_iff.mpr hall

/-- C7 witness — a non-numeric path, an index out of range one level down, a
negative index, and a top-level out-of-range index: all skipped, empty root. -/
theorem sliceByPaths_silent_skip_witness :
    (sliceByPaths astPaths ["foo", "0.9", "-1", "3"]).root.children = [] :=
  (sliceByPaths_silent_skip astPaths ["foo", "0.9", "-1", "3"]).2
    (by intro p hp; fin_cases hp <;> rfl)

/-! ## C8 — readFileLines clamps -/

theorem take_min_length {α : Type} (l : List α) (b : Nat) :
    l.take (min b l.length) = l.take b := by
  rcases Nat.le_total b l.length with h | h
  · rw [min_eq_left h]
  · rw [min_eq_right h, List.take_length, List.take_of_length_le h]

theorem toInt32_eq_self (x : Int) (h1 : -2147483648 ≤ x) (h2 : x < 2147483648) :
    toInt32 x = x := by
  simp only [toInt32]
  split <;> omega

/-- C8 counterexample — the claim's clamp law, quantified over *every* pair
`(startLine, endLine)`, is false of the program: load.ts applies
`lineStart | 0` / `lineEnd | 0` (ToInt32 wrap) before clamping.  At
`startLine = 2^31` the source wraps to `-2^31` and clamps to `1`, returning
line 1 of the file, while the claim's formula clamps the untruncated value
to `2^31` and selects no lines at all. -/
theorem readFileLines_claim_counterexample :
    readFileLines "l1\nl2\nl3\nl4\nl5\nl6\nl7\nl8\nl9\nl10" 2147483648 2147483650 = "l1"
    ∧ jsJoin "\n" (((jsSplitLines "l1\nl2\nl3\nl4\nl5\nl6\nl7\nl8\nl9\nl10").take
        (min (max (max 1 (2147483648 : Int)) 2147483650).toNat
          (jsSplitLines "l1\nl2\nl3\nl4\nl5\nl6\nl7\nl8\nl9\nl10").length)).drop
        ((max 1 (2147483648 : Int)).toNat - 1)) = "" := ⟨rfl, rfl⟩

/-- C8 (amended) — `readFileLines` first truncates both bounds to 32-bit
integers (JS `| 0`), then with `s = max(1, startLine|0)` and
`e = max(s, endLine|0)` returns exactly the lines whose 1-based index lies
in `[s, min(e, L)]`, joined by newlines (here as: take `min(e, L)` lines,
drop the first `s - 1`).  For `startLine`/`endLine` within the int32 range
the truncation is the identity and the original clamp law holds verbatim;
on a 10-line file with `(startLine, endLine) = (8, 20)` it returns lines
8–10 only. -/
theorem readFileLines_clamped_int32 (raw : String) (lineStart lineEnd : Int) :
    readFileLines raw lineStart lineEnd
      = jsJoin "\n" (((jsSplitLines raw).take
          (min (max (max 1 (toInt32 lineStart)) (toInt32 lineEnd)).toNat
            (jsSplitLines raw).length)).drop
          ((max 1 (toInt32 lineStart)).toNat - 1))
    ∧ (-2147483648 ≤ lineStart → lineStart < 2147483648 →
       -2147483648 ≤ lineEnd → lineEnd < 2147483648 →
        readFileLines raw lineStart lineEnd
          = jsJoin "\n" (((jsSplitLines raw).take
              (min (max (max 1 lineStart) lineEnd).toNat (jsSplitLines raw).length)).drop
              ((max 1 lineStart).toNat - 1)))
    ∧ readFileLines "l1\nl2\nl3\nl4\nl5\nl6\nl7\nl8\nl9\nl10" 8 20 = "l8\nl9\nl10" := by
  have hgen : readFileLines raw lineStart lineEnd
      = jsJoin "\n" (((jsSplitLines raw).take
          (min (max (max 1 (toInt32 lineStart)) (toInt32 lineEnd)).toNat
            (jsSplitLines raw).length)).drop
          ((max 1 (toInt32 lineStart)).toNat - 1)) := by
    have hnat : ((max 1 (toInt32 lineStart)) - 1).toNat = (max 1 (toInt32 lineStart)).toNat - 1 := by
      have hs : (1 : Int) ≤ max 1 (toInt32 lineStart) := le_max_left _ _
      omega
    simp only [readFileLines, jsSlice]
    rw [take_min_length, hnat]
  refine ⟨hgen, ?_, rfl⟩
  intro ha hb hc hd
  rw [hgen, toInt32_eq_self lineStart ha hb, toInt32_eq_self lineEnd hc hd]

/-- C8 witness — the amended theorem's in-range clamp law at the 10-line
file with `(startLine, endLine) = (8, 20)`. -/
theorem readFileLines_clamped_int32_witness :
    readFileLines "l1\nl2\nl3\nl4\nl5\nl6\nl7\nl8\nl9\nl10" 8 20
      = jsJoin "\n" (((jsSplitLines "l1\nl2\nl3\nl4\nl5\nl6\nl7\nl8\nl9\nl10").take
          (min (max (max 1 (8 : Int)) 20).toNat
            (jsSplitLines "l1\nl2\nl3\nl4\nl5\nl6\nl7\nl8\nl9\nl10").length)).drop
          ((max 1 (8 : Int)).toNat - 1)) :=
  (readFileLines_clamped_int32 "l1\nl2\nl3\nl4\nl5\nl6\nl7\nl8\nl9\nl10" 8 20).2.1
    (by norm_num) (by norm_num) (by norm_num) (by norm_num)

/-! ## C1 / C3 / C9 — applyPrunePlan -/

theorem pruneStep_eq (plan : PrunePlan) (acc : List DetailedAst × List String)
    (ast : DetailedAst) :
    pruneStep plan.keep_full plan.slice plan.drop acc ast
      = match resolveFile plan ast with
        | some t => (acc.1 ++ [t], acc.2)
        | none => (acc.1, acc.2 ++ [ast.filePath]) := by
  by_cases h1 : ast.filePath ∈ plan.drop
  · simp [pruneStep, resolveFile, h1]
  · by_cases h2 : ast.filePath ∈ plan.keep_full
    · simp [pruneStep, resolveFile, h1, h2]
    · cases hr : findRule plan.slice ast.filePath with
      | none => simp [pruneStep, resolveFile, h1, h2, hr]
      | some rule =>
        simp [pruneStep, resolveFile, h1, h2, hr]
        split_ifs <;> rfl

theorem pruneFold_eq (plan : PrunePlan) (l : List DetailedAst)
    (acc : List DetailedAst × List String) :
    l.foldl (pruneStep plan.keep_full plan.slice plan.drop) acc
      = (acc.1 ++ l.filterMap (resolveFile plan),
         acc.2 ++ l.filterMap (resolveDropName plan)) := by
  induction l generalizing acc with
  | nil => simp
  | cons a t ih =>
    simp only [List.foldl_cons, List.filterMap_cons]
    rw [pruneStep_eq]
    cases hra : resolveFile plan a with
    | some kt =>
      simp only [resolveDropName, hra]
      rw [ih]
      simp
    | none =>
      simp only [resolveDropName, hra]
      rw [ih]
      simp

/-- C1 — for a plan whose mode is not `DROP_ALL` (with server caps
disabled, so that the resolution result is returned unchanged), every input
file is resolved by the first matching rule: drop set, then keep-full set,
then the slice rule (predicate slice before path slice, kept iff non-empty),
and files mentioned nowhere are dropped; `droppedAll` is the emptiness of
the surviving set. -/
theorem applyPrunePlan_first_match (cfg : Config) (st : GraphState) (plan : PrunePlan)
    (hMode : plan.mode ≠ "DROP_ALL") (hCaps : cfg.PRUNE_SERVER_ENFORCE_LIMITS = false) :
    (applyPrunePlan cfg st plan).prunedAsts
      = some (st.detailedAsts.filterMap (resolveFile plan))
    ∧ (applyPrunePlan cfg st plan).droppedAll
      = some (st.detailedAsts.filterMap (resolveFile plan)).isEmpty := by
  have hguard : (cfg.PRUNE_ALLOW_DROP_ALL && (plan.mode == "DROP_ALL")) = false := by
    simp [hMode]
  have hfold := pruneFold_eq plan st.detailedAsts ([], [])
  simp only [applyPrunePlan, hguard, Bool.false_eq_true, if_false, hCaps, hfold]
  simp

/-- C1 witness — the scenario: trees for `src/a.ts` and `src/b.ts`, plan
`{mode: KEEP_SOME, keep_full: [src/a.ts], slice: [], drop: [src/b.ts]}`,
caps disabled: the pruned set is exactly the full `a.ts` tree and
`droppedAll` is false. -/
theorem applyPrunePlan_first_match_witness :
    (applyPrunePlan cfgOff stAB planAB).prunedAsts = some [treeA]
    ∧ (applyPrunePlan cfgOff stAB planAB).droppedAll = some false := by
  have h := applyPrunePlan_first_match cfgOff stAB planAB (by decide) rfl
  refine ⟨?_, ?_⟩
  · rw [h.1]
    rfl
  · rw [h.2]
    rfl

/-- C3 — with drop-all permitted and mode `DROP_ALL`, the pruned set is
empty, `droppedAll` is true, the trace entry records every input file as
dropped with after-estimate 0, and no keep_full/slice/drop rule of the plan
influences the outcome (two `DROP_ALL` plans with arbitrary rule sets give
identical pruned set, flag and trace) — for any number of input trees. -/
theorem applyPrunePlan_drop_all (cfg : Config) (st : GraphState) (plan : PrunePlan)
    (hAllow : cfg.PRUNE_ALLOW_DROP_ALL = true) (hMode : plan.mode = "DROP_ALL") :
    (applyPrunePlan cfg st plan).prunedAsts = some []
    ∧ (applyPrunePlan cfg st plan).droppedAll = some true
    ∧ (applyPrunePlan cfg st plan).trace = some (pushPruneTrace st.trace
        { mode := "DROP_ALL"
          plannedFiles := st.detailedAsts.map DetailedAst.filePath
          keptFiles := []
          droppedFiles := st.detailedAsts.map DetailedAst.filePath
          estTokensBefore := estimateTokensForAsts st.detailedAsts
          estTokensAfter := 0 })
    ∧ ∀ plan2 : PrunePlan, plan2.mode = "DROP_ALL" →
        (applyPrunePlan cfg st plan2).prunedAsts = (applyPrunePlan cfg st plan).prunedAsts
        ∧ (applyPrunePlan cfg st plan2).droppedAll = (applyPrunePlan cfg st plan).droppedAll
        ∧ (applyPrunePlan cfg st plan2).trace = (applyPrunePlan cfg st plan).trace := by
  have hred : ∀ p : PrunePlan, p.mode = "DROP_ALL" →
      applyPrunePlan cfg st p
        = { st with
            prunedAsts := some []
            prunePlan := some p
            prunePlanApplied := some { mode := "DROP_ALL" }
            droppedAll := some true
            followups := []
            trace := some (pushPruneTrace st.trace
              { mode := "DROP_ALL"
                plannedFiles := st.detailedAsts.map DetailedAst.filePath
                keptFiles := []
                droppedFiles := st.detailedAsts.map DetailedAst.filePath
                estTokensBefore := estimateTokensForAsts st.detailedAsts
                estTokensAfter := 0 }) } := by
    intro p hp
    simp [applyPrunePlan, hAllow, hp]
  refine ⟨?_, ?_, ?_, ?_⟩
  · rw [hred plan hMode]
  · rw [hred plan hMode]
  · rw [hred plan hMode]
  · intro plan2 h2
    rw [hred plan2 h2, hred plan hMode]
    exact ⟨rfl, rfl, rfl⟩

/-- C3 witness — the theorem at two concrete trees and a `DROP_ALL` plan
that even carries a (to-be-ignored) keep_full rule. -/
theorem applyPrunePlan_drop_all_witness :
    (applyPrunePlan cfgOn stAB planDrop).prunedAsts = some []
    ∧ (applyPrunePlan cfgOn stAB planDrop).droppedAll = some true :=
  ⟨(applyPrunePlan_drop_all cfgOn stAB planDrop rfl rfl).1,
   (applyPrunePlan_drop_all cfgOn stAB planDrop rfl rfl).2.1⟩

/-- C9 — the DROP_ALL branch of `applyPrunePlan` additionally resets the
state's `followups` field (outside the documented prune outputs) to `[]`;
every non-DROP_ALL branch leaves `followups` unchanged. -/
theorem applyPrunePlan_followups_frame (cfg : Config) (st : GraphState) (plan : PrunePlan) :
    ((cfg.PRUNE_ALLOW_DROP_ALL && (plan.mode == "DROP_ALL")) = true →
      (applyPrunePlan cfg st plan).followups = [])
    ∧ ((cfg.PRUNE_ALLOW_DROP_ALL && (plan.mode == "DROP_ALL")) = false →
      (applyPrunePlan cfg st plan).followups = st.followups) := by
  constructor
  · intro hg
    simp [applyPrunePlan, hg]
  · intro hg
    simp [applyPrunePlan, hg]

/-- C9 witness — a DROP_ALL prune erases the pending follow-up, a KEEP_SOME
prune preserves it. -/
theorem applyPrunePlan_followups_frame_witness :
    (applyPrunePlan cfgOn stAB planDrop).followups = []
    ∧ (applyPrunePlan cfgOn stAB planKeep).followups = stAB.followups :=
  ⟨(applyPrunePlan_followups_frame cfgOn stAB planDrop).1 rfl,
   (applyPrunePlan_followups_frame cfgOn stAB planKeep).2 rfl⟩

/-! ## C10 — predicate slice keeps nested matches -/

/-- C10 — `sliceDetailedAST` does not de-duplicate nested matches: with
`hintTypes = ["function_declaration"]` and `maxNodes = 2`, a matching node
and its matching descendant are both collected as top-level children of the
synthetic root, so the descendant's subtree appears twice (once on its own
and once inside its parent's kept subtree). -/
theorem sliceDetailedAST_nested_duplicate :
    (sliceDetailedAST astDup
        { symbols := none, hintTypes := some ["function_declaration"],
          maxNodes := some 2 }).root.children
      = [dupParent, dupChild]
    ∧ dupParent.children = [dupChild] := ⟨rfl, rfl⟩

/-! ## C2 — the answer→decide back-edge is re-evaluated, not one-shot -/

/-- C2 — the back-edge can be taken more than once: with an oracle that
keeps requesting a file that fails to parse and keeps returning an
expansion-intent follow-up, the modelled compiled graph takes the
`answer_from_code → decide_files_again` edge twice (`_loopCount` reaches 2),
and `shouldLoop` still holds afterwards, so nothing terminates the run after
the "single extra iteration" — `shouldLoop` never consults `_loopCount` or
`MAX_LOOPS`. -/
theorem graph_backedge_taken_twice :
    (runGraphModel cfgOn fsLoop oracleLoop 2 "q").loopCount = 2
    ∧ shouldLoop (runGraphModel cfgOn fsLoop oracleLoop 2 "q") = true := ⟨rfl, rfl⟩
